import Mathlib

/-!
Verification of the process-identity resolver of the runtime-security probe
(`pkg/security/probe` part of `environment_detection.go`): the process cache
with lineage links (`insertEntry`, `AddEntry`, `DelEntry`, `Get`), the
two-step kernel-table fallback (`Resolve` / `resolve`), the binary decoder
(`InodeInfo.UnmarshalBinary`), the enrichment pipeline
(`enrichEventFromProc`) and the snapshot driver (`SyncCache`).

Go pointer structure is embedded with an explicit heap (arena): a
`ProcessCacheEntry` value lives at a numeric reference into `RState.heap`,
and the Go map `entryCache : map[uint32]*ProcessCacheEntry` becomes an
association list from pid to heap reference. Kernel maps and `/proc`
accessors are environment functions returning `Option` (absence is an
expected outcome, never an exception).
-/

namespace Probe

/-- Little-endian 32-bit read of the first four bytes of a byte list,
mirroring `ebpf.ByteOrder.Uint32` (the tracer's native byte order). -/
def byteOrderUint32 (l : List Nat) : Nat :=
  l.getD 0 0 + 256 * l.getD 1 0 + 65536 * l.getD 2 0 + 16777216 * l.getD 3 0

/-- Little-endian 64-bit read of the first eight bytes, mirroring
`ebpf.ByteOrder.Uint64`. -/
def byteOrderUint64 (l : List Nat) : Nat :=
  byteOrderUint32 l + 4294967296 * byteOrderUint32 (l.drop 4)

/-- Little-endian 32-bit encoding, mirroring `ebpf.ByteOrder.PutUint32`. -/
def putUint32 (n : Nat) : List Nat :=
  [n % 256, n / 256 % 256, n / 65536 % 256, n / 16777216 % 256]

/-- Little-endian 64-bit encoding, mirroring `ebpf.ByteOrder.PutUint64`. -/
def putUint64 (n : Nat) : List Nat :=
  putUint32 (n % 4294967296) ++ putUint32 (n / 4294967296)

/-- Go conversion `int32(uint32 value)`: reinterpret a 32-bit unsigned
value as signed two's complement. -/
def int32OfUint32 (n : Nat) : Int :=
  if n < 2147483648 then (n : Int) else (n : Int) - 4294967296

/-- Decode failure of the binary decoder (`ErrNotEnoughData`). -/
inductive DecodeError where
  | notEnoughData
deriving DecidableEq

/-- InodeInfo holds information related to inode from kernel
(`MountID uint32`, `OverlayNumLower int32`). -/
structure InodeInfo where
  mountID : Nat
  overlayNumLower : Int
deriving DecidableEq

/-- UnmarshalBinary for `InodeInfo` (lines 165-172): fewer than 8 bytes
fails with `ErrNotEnoughData`; otherwise `MountID` is read from bytes 0-3,
`OverlayNumLower` from bytes 4-7 (as `int32`), and 8 bytes are consumed. -/
def InodeInfo.UnmarshalBinary (data : List Nat) :
    Except DecodeError (Nat × InodeInfo) :=
  if data.length < 8 then
    .error .notEnoughData
  else
    .ok (8, { mountID := byteOrderUint32 data,
              overlayNumLower := int32OfUint32 (byteOrderUint32 (data.drop 4)) })

/-- ProcessCacheEntry: the cached description of one observed process.
The Go fields `Children []*ProcessCacheEntry` and
`Parent *ProcessCacheEntry` are embedded as heap references (see `RState`).
`execTimestamp = none` models the zero `time.Time`
(`ExecTimestamp.IsZero()`); any value ever assigned through
`time.Unix(0, ...)` is `some`. -/
structure ProcessCacheEntry where
  pid : Nat := 0
  tid : Nat := 0
  ppid : Nat := 0
  uid : Nat := 0
  gid : Nat := 0
  execTimestamp : Option Nat := none
  comm : String := ""
  ttyName : String := ""
  pathnameStr : String := ""
  containerPath : String := ""
  containerID : String := ""
  inode : Nat := 0
  mountID : Nat := 0
  overlayNumLower : Int := 0
  children : List Nat := []
  parent : Option Nat := none
deriving DecidableEq

/-- Pointer-free projection of a `ProcessCacheEntry`: every field except
the lineage references. Two entries with equal core carry the same data. -/
structure EntryCore where
  pid : Nat
  tid : Nat
  ppid : Nat
  uid : Nat
  gid : Nat
  execTimestamp : Option Nat
  comm : String
  ttyName : String
  pathnameStr : String
  containerPath : String
  containerID : String
  inode : Nat
  mountID : Nat
  overlayNumLower : Int
deriving DecidableEq

/-- Core data of an entry (drops `children` and `parent`). -/
def coreOf (e : ProcessCacheEntry) : EntryCore :=
  { pid := e.pid, tid := e.tid, ppid := e.ppid, uid := e.uid, gid := e.gid,
    execTimestamp := e.execTimestamp, comm := e.comm, ttyName := e.ttyName,
    pathnameStr := e.pathnameStr, containerPath := e.containerPath,
    containerID := e.containerID, inode := e.inode, mountID := e.mountID,
    overlayNumLower := e.overlayNumLower }

/-- Heap read: dereference a heap reference (Go pointer). Out-of-range
references (never produced by the operations) read the zero value. -/
def heapGet : List ProcessCacheEntry → Nat → ProcessCacheEntry
  | [], _ => {}
  | e :: _, 0 => e
  | _ :: t, n + 1 => heapGet t n

/-- Heap write: in-place update through a reference (Go pointer store). -/
def heapSet : List ProcessCacheEntry → Nat → ProcessCacheEntry →
    List ProcessCacheEntry
  | [], _, _ => []
  | _ :: t, 0, x => x :: t
  | e :: t, n + 1, x => e :: heapSet t n x

/-- Map lookup on the pid-to-reference association list
(`entry, ok := p.entryCache[pid]`). -/
def cacheFind : List (Nat × Nat) → Nat → Option Nat
  | [], _ => none
  | (k, v) :: t, q => if k = q then some v else cacheFind t q

/-- Map store (`p.entryCache[pid] = entry`). -/
def cacheSet : List (Nat × Nat) → Nat → Nat → List (Nat × Nat)
  | [], k, v => [(k, v)]
  | (k2, v2) :: t, k, v =>
    if k2 = k then (k, v) :: t else (k2, v2) :: cacheSet t k v

/-- Map deletion (`delete(p.entryCache, pid)`). -/
def cacheDel (c : List (Nat × Nat)) (k : Nat) : List (Nat × Nat) :=
  c.filter (fun kv => kv.1 ≠ k)

/-- ProcessResolver state: the entry arena (modelling the Go heap of
`ProcessCacheEntry` objects) and the pid-indexed cache map. -/
structure RState where
  heap : List ProcessCacheEntry := []
  entryCache : List (Nat × Nat) := []
deriving DecidableEq

/-- insertEntry (lines 295-318): under the write lock, look up
`entryCache[entry.PPid]`; if found append `entry` to that parent's child
list, otherwise if `entry.PPid >= 1` synthesize a placeholder parent (only
`Pid` and the one child set) and store it under the parent pid; then set
`entry.Parent` and store `entry` under `pid`, overwriting any prior slot.
`r` is the heap reference of the entry being inserted (the Go `*entry`). -/
def insertEntry (s : RState) (pid r : Nat) : RState :=
  let e := heapGet s.heap r
  match cacheFind s.entryCache e.ppid with
  | some pref =>
    let pold := heapGet s.heap pref
    let heap1 := heapSet s.heap pref { pold with children := pold.children ++ [r] }
    let heap2 := heapSet heap1 r { heapGet heap1 r with parent := some pref }
    { heap := heap2, entryCache := cacheSet s.entryCache pid r }
  | none =>
    if 1 ≤ e.ppid then
      let pref := s.heap.length
      let ph : ProcessCacheEntry := { pid := e.ppid, children := [r] }
      let heap1 := s.heap ++ [ph]
      let heap2 := heapSet heap1 r { heapGet heap1 r with parent := some pref }
      { heap := heap2,
        entryCache := cacheSet (cacheSet s.entryCache e.ppid pref) pid r }
    else
      let heap1 := heapSet s.heap r { e with parent := none }
      { heap := heap1, entryCache := cacheSet s.entryCache pid r }

/-- AddEntry (lines 193-195): the caller hands over a freshly built entry
object; it is allocated on the heap and passed to `insertEntry`. -/
def AddEntry (s : RState) (pid : Nat) (e : ProcessCacheEntry) : RState :=
  insertEntry { s with heap := s.heap ++ [e] } pid s.heap.length

/-- DelEntry (lines 320-324): remove the pid's own map slot, touching
neither the heap nor any lineage link. -/
def DelEntry (s : RState) (pid : Nat) : RState :=
  { s with entryCache := cacheDel s.entryCache pid }

/-- Get (lines 375-383): pure cache peek under the read lock; never falls
back to the kernel tables. -/
def Get (s : RState) (pid : Nat) : Option Nat :=
  cacheFind s.entryCache pid

/-- Environment of the resolver: the three kernel byte-keyed tables plus
the `/proc`-backed accessors used by the enrichment pipeline. Absence is
`none`, mirroring lookups that return nil or an error. -/
structure Env where
  pidCookieMap : List Nat → Option (List Nat)
  procCacheMap : List Nat → Option (List Nat)
  inodeInfoMap : List Nat → Option (List Nat)
  execLink : Nat → Option String
  statInode : Nat → Option Nat
  containerID : Nat → Option String
  containerPathOf : Nat → String
  ttyName : Nat → String

/-- Modelled from the spec: `ProcessCacheEntry.UnmarshalBinary` is not
part of the sources under verification (only its caller `resolve` is).
Per the spec the process record is a fixed-layout prefix (exec timestamp,
parent pid, file-identity fields, command name) that fails with the
truncated-record outcome when shorter than its fixed minimum size (200
bytes, the 208-byte minimum of `resolve` minus the 8 trailing credential
bytes) and otherwise reports the bytes consumed. -/
def pceDecodedEntry (data : List Nat) : ProcessCacheEntry :=
  { execTimestamp := some (byteOrderUint64 data),
    ppid := byteOrderUint32 (data.drop 8),
    inode := byteOrderUint64 (data.drop 12),
    mountID := byteOrderUint32 (data.drop 20),
    overlayNumLower := int32OfUint32 (byteOrderUint32 (data.drop 24)),
    comm := "", pathnameStr := "" }

/-- Modelled from the spec (continued): the decode result, 200 bytes
consumed and the fixed-prefix fields of `pceDecodedEntry`. -/
def pceUnmarshalBinary (data : List Nat) :
    Except DecodeError (Nat × ProcessCacheEntry) :=
  if data.length < 200 then
    .error .notEnoughData
  else
    .ok (200, pceDecodedEntry data)

/-- Entry built by the fallback path of `resolve` (lines 354-368) from the
combined record-plus-cookie payload: the decoded record with the trailing
credentials read at the consumed offset, and pid and tid forced to the
requested pid. -/
def fallbackEntry (data : List Nat) (read pid : Nat)
    (e : ProcessCacheEntry) : ProcessCacheEntry :=
  { e with uid := byteOrderUint32 (data.drop read),
           gid := byteOrderUint32 (data.drop (read + 4)),
           pid := pid, tid := pid }

/-- resolve (lines 339-373): two-step kernel lookup (pid to cookie, first
four cookie bytes to record), append the cookie bytes to the record bytes,
require at least 208 combined bytes, decode, read trailing credentials,
then insert the freshly allocated entry into the cache. Any miss or short
payload yields `none` and leaves the state untouched. -/
def resolveFallback (s : RState) (env : Env) (pid : Nat) :
    RState × Option Nat :=
  match env.pidCookieMap (putUint32 pid) with
  | none => (s, none)
  | some cookieb =>
    match env.procCacheMap (cookieb.take 4) with
    | none => (s, none)
    | some entryb =>
      let data := entryb ++ cookieb
      if data.length < 208 then (s, none)
      else
        match pceUnmarshalBinary data with
        | .error _ => (s, none)
        | .ok (read, e0) =>
          let e := fallbackEntry data read pid e0
          let r := s.heap.length
          let s1 : RState := { s with heap := s.heap ++ [e] }
          (insertEntry s1 pid r, some r)

/-- Resolve (lines 327-337): return the cache entry when present,
otherwise fall back to the kernel maps via `resolve`. -/
def Resolve (s : RState) (env : Env) (pid : Nat) : RState × Option Nat :=
  match cacheFind s.entryCache pid with
  | some r => (s, some r)
  | none => resolveFallback s env pid

/-- FilledProcess: the raw `/proc`-sourced process description handed to
the snapshot driver (`gopsutil` record). -/
structure FilledProcess where
  pid : Nat
  ppid : Nat
  name : String
  createTime : Nat
  uids : List Nat
  gids : List Nat

/-- retrieveInodeInfo (lines 273-292): look the 8-byte-encoded inode up in
the inode-info kernel table and decode the payload; a lookup miss or a
decode failure yields `none`. -/
def retrieveInodeInfo (env : Env) (inode : Nat) : Option InodeInfo :=
  match env.inodeInfoMap (putUint64 inode) with
  | none => none
  | some data =>
    match InodeInfo.UnmarshalBinary data with
    | .error _ => none
    | .ok (_, info) => info

/-- enrichEventFromProc (lines 206-270): readlink of the exec path (error
or the deleted-binary marker aborts), stat for the inode (error aborts),
inode-info kernel lookup (miss aborts), container-ID resolution (error
aborts); only after every failure point has passed are the entry's fields
assigned, so a failing run leaves the entry untouched (`none` here). -/
def enrichEventFromProc (env : Env) (entry : ProcessCacheEntry)
    (proc : FilledProcess) : Option ProcessCacheEntry :=
  let pid := proc.pid
  match env.execLink pid with
  | none => none
  | some pathnameStr =>
    if pathnameStr = "/ (deleted)" then none
    else
      match env.statInode pid with
      | none => none
      | some inode =>
        match retrieveInodeInfo env inode with
        | none => none
        | some info =>
          match env.containerID pid with
          | none => none
          | some cid =>
            some { entry with
              inode := inode,
              overlayNumLower := info.overlayNumLower,
              mountID := info.mountID,
              pathnameStr := pathnameStr,
              containerPath := env.containerPathOf inode,
              containerID := cid,
              execTimestamp := some proc.createTime,
              comm := proc.name,
              ppid := proc.ppid,
              ttyName := env.ttyName pid,
              pid := pid,
              tid := pid,
              uid := match proc.uids with | [] => entry.uid | u :: _ => u,
              gid := match proc.gids with | [] => entry.gid | g :: _ => g }

/-- Entry that `SyncCache` hands to the enrichment pipeline: the cached
object itself when the pid is cached, a fresh zero entry otherwise. -/
def syncTarget (s : RState) (pid : Nat) : ProcessCacheEntry :=
  match cacheFind s.entryCache pid with
  | some r => heapGet s.heap r
  | none => {}

/-- SyncCache (lines 413-448): pid 0 is skipped; a cached entry with a
non-zero exec timestamp is skipped (no enrichment); otherwise the cached
object (or a fresh entry) is enriched in place and, on success, passed to
`insertEntry`; the boolean reports whether the cache changed. -/
def SyncCache (s : RState) (env : Env) (proc : FilledProcess) :
    RState × Bool :=
  let pid := proc.pid
  if pid = 0 then (s, false)
  else
    match cacheFind s.entryCache pid with
    | some r =>
      let entry := heapGet s.heap r
      if entry.execTimestamp.isSome then (s, false)
      else
        match enrichEventFromProc env entry proc with
        | none => (s, false)
        | some e2 =>
          let s1 : RState := { s with heap := heapSet s.heap r e2 }
          (insertEntry s1 pid r, true)
    | none =>
      match enrichEventFromProc env {} proc with
      | none => (s, false)
      | some e2 =>
        let r := s.heap.length
        let s1 : RState := { s with heap := s.heap ++ [e2] }
        (insertEntry s1 pid r, true)

/-- Core data stored under a pid: the observable value of the map slot,
with lineage references stripped. -/
def slotCore (s : RState) (pid : Nat) : Option EntryCore :=
  (cacheFind s.entryCache pid).map (fun r => coreOf (heapGet s.heap r))

/-- Core data of the children of the entry stored under a pid: the
observable child list. -/
def childCores (s : RState) (pid : Nat) : Option (List EntryCore) :=
  (cacheFind s.entryCache pid).map
    (fun r => (heapGet s.heap r).children.map (fun c => coreOf (heapGet s.heap c)))

/-- Every cache slot references a live heap cell; true of every state the
resolver builds (a Go map of pointers cannot dangle). -/
def cacheRefsValid (s : RState) : Bool :=
  s.entryCache.all (fun kv => decide (kv.2 < s.heap.length))

/-- Environment with every kernel table and `/proc` accessor empty. -/
def envNone : Env :=
  { pidCookieMap := fun _ => none, procCacheMap := fun _ => none,
    inodeInfoMap := fun _ => none, execLink := fun _ => none,
    statInode := fun _ => none, containerID := fun _ => none,
    containerPathOf := fun _ => "", ttyName := fun _ => "" }

/-- Environment whose kernel tables know pid 7 under cookie 99 with a
204-byte zero record (208 combined bytes). -/
def envKern : Env :=
  { pidCookieMap := fun k => if k = putUint32 7 then some (putUint32 99) else none,
    procCacheMap := fun k => if k = putUint32 99 then some (List.replicate 204 0) else none,
    inodeInfoMap := fun _ => none, execLink := fun _ => none,
    statInode := fun _ => none, containerID := fun _ => none,
    containerPathOf := fun _ => "", ttyName := fun _ => "" }

/-- Environment in which the snapshot enrichment of pid 7 fully succeeds:
exec link `/bin/x`, inode 42, inode-info record with mount id 5 and one
overlay lower layer, no container. -/
def envSnap : Env :=
  { pidCookieMap := fun _ => none, procCacheMap := fun _ => none,
    inodeInfoMap := fun k => if k = putUint64 42 then some [5, 0, 0, 0, 1, 0, 0, 0] else none,
    execLink := fun p => if p = 7 then some "/bin/x" else none,
    statInode := fun p => if p = 7 then some 42 else none,
    containerID := fun p => if p = 7 then some "" else none,
    containerPathOf := fun _ => "", ttyName := fun _ => "" }

/-- Raw `/proc` record of pid 7 used by the snapshot witnesses. -/
def procSnap : FilledProcess :=
  { pid := 7, ppid := 1, name := "p", createTime := 5, uids := [], gids := [] }

/-- Entry produced by enriching the empty entry with `procSnap` under
`envSnap`. -/
def entrySnap : ProcessCacheEntry :=
  { pid := 7, tid := 7, ppid := 1, uid := 0, gid := 0,
    execTimestamp := some 5, comm := "p", ttyName := "",
    pathnameStr := "/bin/x", containerPath := "", containerID := "",
    inode := 42, mountID := 5, overlayNumLower := 1 }

/-- Cache operations reachable from outside the resolver core that mutate
the process cache directly (`AddEntry`, `DelEntry`). -/
inductive CacheOp where
  | addOp (pid : Nat) (e : ProcessCacheEntry)
  | delOp (pid : Nat)

/-- Run one cache operation. -/
def applyOp (s : RState) : CacheOp → RState
  | .addOp pid e => AddEntry s pid e
  | .delOp pid => DelEntry s pid

/-- Run a sequence of cache operations. -/
def runOps : RState → List CacheOp → RState
  | s, [] => s
  | s, op :: t => runOps (applyOp s op) t

/-- Operation inserts only real pids (at least 1). -/
def opOK : CacheOp → Bool
  | .addOp pid _ => 1 ≤ pid
  | .delOp _ => true

/-- No cache key is below 1 (in particular, no placeholder was ever
synthesized for a parent pid below 1). -/
def noPidZeroKeys (s : RState) : Prop :=
  ∀ q r, cacheFind s.entryCache q = some r → 1 ≤ q

/-- Every entry whose parent pid is zero carries no parent reference. -/
def rootsUnlinked (s : RState) : Prop :=
  ∀ i, (heapGet s.heap i).ppid = 0 → (heapGet s.heap i).parent = none

/-- Lock events on the resolver's single reader/writer mutex. -/
inductive LockEv where
  | lockW
  | unlockW
  | lockR
  | unlockR
deriving DecidableEq

/-- Lock events of `insertEntry` (lines 296 and 317): exclusive lock
around the map mutation. -/
def insertEntryTrace : List LockEv := [LockEv.lockW, LockEv.unlockW]

/-- Lock events of `resolve` (lines 339-373): none of its own, but on the
full fallback-success path it calls `insertEntry` (line 370), inheriting
that call's exclusive acquisition. -/
def resolveFallbackTrace (env : Env) (pid : Nat) : List LockEv :=
  match env.pidCookieMap (putUint32 pid) with
  | none => []
  | some cookieb =>
    match env.procCacheMap (cookieb.take 4) with
    | none => []
    | some entryb =>
      if (entryb ++ cookieb).length < 208 then []
      else
        match pceUnmarshalBinary (entryb ++ cookieb) with
        | .error _ => []
        | .ok _ => insertEntryTrace

/-- Lock events of `Resolve` (lines 327-337): exclusive lock on entry,
released by defer after the body (including any fallback) has run. -/
def ResolveTrace (s : RState) (env : Env) (pid : Nat) : List LockEv :=
  LockEv.lockW ::
    ((match cacheFind s.entryCache pid with
      | some _ => []
      | none => resolveFallbackTrace env pid) ++ [LockEv.unlockW])

/-- A goroutine-local trace self-deadlocks when it acquires the
non-reentrant mutex (in either mode) while it already holds the exclusive
mode; the counter tracks the write-hold depth. -/
def hasNestedAcquire : Nat → List LockEv → Bool
  | _, [] => false
  | held, ev :: t =>
    match ev with
    | .lockW => decide (0 < held) || hasNestedAcquire (held + 1) t
    | .unlockW => hasNestedAcquire (held - 1) t
    | .lockR => decide (0 < held) || hasNestedAcquire held t
    | .unlockR => hasNestedAcquire held t

theorem heapSet_length (h : List ProcessCacheEntry) (r : Nat)
    (x : ProcessCacheEntry) : (heapSet h r x).length = h.length := by
  induction h generalizing r with
  | nil => rfl
  | cons e t ih =>
    cases r with
    | zero => rfl
    | succ n => simp [heapSet, ih]

theorem heapGet_set_self (h : List ProcessCacheEntry) (r : Nat)
    (x : ProcessCacheEntry) (hr : r < h.length) :
    heapGet (heapSet h r x) r = x := by
  induction h generalizing r with
  | nil => simp at hr
  | cons e t ih =>
    cases r with
    | zero => rfl
    | succ n => exact ih n (by simpa using hr)

theorem heapGet_set_ne (h : List ProcessCacheEntry) (r q : Nat)
    (x : ProcessCacheEntry) (hq : q ≠ r) :
    heapGet (heapSet h r x) q = heapGet h q := by
  induction h generalizing r q with
  | nil => rfl
  | cons e t ih =>
    cases r with
    | zero =>
      cases q with
      | zero => exact absurd rfl hq
      | succ m => rfl
    | succ n =>
      cases q with
      | zero => rfl
      | succ m => exact ih n m (fun hc => hq (by rw [hc]))

theorem heapGet_append_lt (h l : List ProcessCacheEntry) (r : Nat)
    (hr : r < h.length) : heapGet (h ++ l) r = heapGet h r := by
  induction h generalizing r with
  | nil => simp at hr
  | cons e t ih =>
    cases r with
    | zero => rfl
    | succ n => exact ih n (by simpa using hr)

theorem heapGet_append_self (h : List ProcessCacheEntry)
    (e : ProcessCacheEntry) : heapGet (h ++ [e]) h.length = e := by
  induction h with
  | nil => rfl
  | cons x t ih => simpa [heapGet] using ih

theorem mem_heapSet (h : List ProcessCacheEntry) (r : Nat)
    (x y : ProcessCacheEntry) (hy : y ∈ heapSet h r x) : y = x ∨ y ∈ h := by
  induction h generalizing r with
  | nil => simp [heapSet] at hy
  | cons e t ih =>
    cases r with
    | zero =>
      rcases List.mem_cons.mp hy with h1 | h1
      · exact Or.inl h1
      · exact Or.inr (List.mem_cons.mpr (Or.inr h1))
    | succ n =>
      rcases List.mem_cons.mp hy with h1 | h1
      · exact Or.inr (List.mem_cons.mpr (Or.inl h1))
      · rcases ih n h1 with h2 | h2
        · exact Or.inl h2
        · exact Or.inr (List.mem_cons.mpr (Or.inr h2))

theorem cacheFind_set_self (c : List (Nat × Nat)) (k v : Nat) :
    cacheFind (cacheSet c k v) k = some v := by
  induction c with
  | nil => simp [cacheSet, cacheFind]
  | cons kv t ih =>
    by_cases hk : kv.1 = k
    · simp [cacheSet, hk, cacheFind]
    · simp [cacheSet, hk, cacheFind, ih]

theorem cacheFind_set_ne (c : List (Nat × Nat)) (k v q : Nat) (hq : q ≠ k) :
    cacheFind (cacheSet c k v) q = cacheFind c q := by
  have hkq : ¬ k = q := fun h => hq h.symm
  induction c with
  | nil => simp [cacheSet, cacheFind, hkq]
  | cons kv t ih =>
    by_cases hk : kv.1 = k
    · have hkvq : ¬ kv.1 = q := fun h => hkq (hk.symm.trans h)
      simp [cacheSet, hk, cacheFind, hkq, hkvq]
    · by_cases hq2 : kv.1 = q
      · simp [cacheSet, hk, cacheFind, hq2, hq]
      · simp [cacheSet, hk, cacheFind, hq2, ih]

theorem cacheFind_del_self (c : List (Nat × Nat)) (k : Nat) :
    cacheFind (cacheDel c k) k = none := by
  induction c with
  | nil => rfl
  | cons kv t ih =>
    by_cases hk : kv.1 = k
    · simpa [cacheDel, hk] using ih
    · simpa [cacheDel, cacheFind, hk] using ih

theorem cacheFind_del_ne (c : List (Nat × Nat)) (k q : Nat) (hq : q ≠ k) :
    cacheFind (cacheDel c k) q = cacheFind c q := by
  have hkq : ¬ k = q := fun h => hq h.symm
  induction c with
  | nil => rfl
  | cons kv t ih =>
    by_cases hk : kv.1 = k
    · have hkvq : ¬ kv.1 = q := fun h => hkq (hk.symm.trans h)
      simpa [cacheDel, hk, cacheFind, hkvq, hkq] using ih
    · by_cases hq2 : kv.1 = q
      · simp [cacheDel, List.filter_cons, hk, cacheFind, hq2, hq]
      · simpa [cacheDel, hk, cacheFind, hq2] using ih

theorem cacheFind_mem (c : List (Nat × Nat)) (k v : Nat)
    (h : cacheFind c k = some v) : (k, v) ∈ c := by
  induction c with
  | nil => exact Option.noConfusion h
  | cons kv t ih =>
    obtain ⟨a, b⟩ := kv
    by_cases hk : a = k
    · subst hk
      have hb : b = v := by simpa [cacheFind] using h
      subst hb
      exact List.mem_cons.mpr (Or.inl rfl)
    · simp only [cacheFind, if_neg hk] at h
      exact List.mem_cons.mpr (Or.inr (ih h))

theorem mem_cacheSet (c : List (Nat × Nat)) (k v : Nat) (kv : Nat × Nat)
    (h : kv ∈ cacheSet c k v) : kv = (k, v) ∨ kv ∈ c := by
  induction c with
  | nil => simpa [cacheSet] using h
  | cons kv2 t ih =>
    by_cases hk : kv2.1 = k
    · simp only [cacheSet, if_pos hk] at h
      rcases List.mem_cons.mp h with h1 | h1
      · exact Or.inl h1
      · exact Or.inr (List.mem_cons.mpr (Or.inr h1))
    · simp only [cacheSet, if_neg hk] at h
      rcases List.mem_cons.mp h with h1 | h1
      · exact Or.inr (List.mem_cons.mpr (Or.inl h1))
      · rcases ih h1 with h2 | h2
        · exact Or.inl h2
        · exact Or.inr (List.mem_cons.mpr (Or.inr h2))

theorem mem_cacheDel (c : List (Nat × Nat)) (k : Nat) (kv : Nat × Nat)
    (h : kv ∈ cacheDel c k) : kv ∈ c :=
  List.mem_of_mem_filter h

theorem coreOf_set_parent (e : ProcessCacheEntry) (p : Option Nat) :
    coreOf { e with parent := p } = coreOf e := rfl

theorem coreOf_set_children (e : ProcessCacheEntry) (l : List Nat) :
    coreOf { e with children := l } = coreOf e := rfl

theorem coreOf_mk (p t pp u g : Nat) (ts : Option Nat)
    (cm tn ps cp ci : String) (ino mid : Nat) (ov : Int)
    (ch : List Nat) (pa : Option Nat) :
    coreOf ⟨p, t, pp, u, g, ts, cm, tn, ps, cp, ci, ino, mid, ov, ch, pa⟩ =
      ⟨p, t, pp, u, g, ts, cm, tn, ps, cp, ci, ino, mid, ov⟩ := rfl

theorem heapGet_ge (h : List ProcessCacheEntry) (i : Nat)
    (hi : h.length ≤ i) : heapGet h i = ({} : ProcessCacheEntry) := by
  induction h generalizing i with
  | nil => rfl
  | cons e t ih =>
    cases i with
    | zero => simp at hi
    | succ n => exact ih n (by simpa using hi)

theorem heapGet_set (h : List ProcessCacheEntry) (r : Nat)
    (x : ProcessCacheEntry) (i : Nat) :
    heapGet (heapSet h r x) i =
      if i = r ∧ r < h.length then x else heapGet h i := by
  induction h generalizing r i with
  | nil => simp [heapSet]
  | cons e t ih =>
    cases r with
    | zero =>
      cases i with
      | zero => simp [heapSet, heapGet]
      | succ m => simp [heapSet, heapGet]
    | succ n =>
      cases i with
      | zero => simp [heapSet, heapGet]
      | succ m =>
        simp only [heapSet, heapGet, ih, List.length_cons]
        by_cases hm : m = n
        · subst hm
          by_cases hn : m < t.length
          · simp [hn]
          · simp [hn, fun h2 => hn (Nat.lt_of_succ_lt_succ h2)]
        · simp [hm, fun h2 => hm (Nat.succ_injective h2)]

theorem heapGet_append (h l : List ProcessCacheEntry) (i : Nat) :
    heapGet (h ++ l) i =
      if i < h.length then heapGet h i else heapGet l (i - h.length) := by
  induction h generalizing i with
  | nil => simp [heapGet]
  | cons e t ih =>
    cases i with
    | zero => simp [heapGet]
    | succ n => simpa [heapGet, Nat.succ_lt_succ_iff] using ih n

theorem refsValid_find (s : RState) (pid r : Nat)
    (h : cacheRefsValid s = true)
    (hf : cacheFind s.entryCache pid = some r) : r < s.heap.length := by
  have hm := cacheFind_mem _ _ _ hf
  have := List.all_eq_true.mp h _ hm
  simpa using this

theorem insertEntry_find_self (s : RState) (pid r : Nat) :
    cacheFind (insertEntry s pid r).entryCache pid = some r := by
  simp only [insertEntry]
  split
  · simp [cacheFind_set_self]
  · split
    · simp [cacheFind_set_self]
    · simp [cacheFind_set_self]

theorem insertEntry_core (s : RState) (pid r : Nat) (hr : r < s.heap.length) :
    coreOf (heapGet (insertEntry s pid r).heap r) =
      coreOf (heapGet s.heap r) := by
  simp only [insertEntry]
  split
  next pref hc =>
    rw [heapGet_set_self _ _ _ (by rw [heapSet_length]; exact hr)]
    by_cases hpr : pref = r
    · subst hpr
      rw [heapGet_set_self _ _ _ hr]
      rfl
    · rw [heapGet_set_ne _ _ _ _ (fun h2 => hpr h2.symm)]
      rfl
  next hc =>
    split
    next hp =>
      rw [heapGet_set_self _ _ _ (by simpa using Nat.lt_succ_of_lt hr)]
      rw [heapGet_append_lt _ _ _ hr]
      rfl
    next hp =>
      rw [heapGet_set_self _ _ _ hr]
      rfl

theorem byteOrderUint32_take (l : List Nat) :
    byteOrderUint32 (l.take 4) = byteOrderUint32 l := by
  match l with
  | [] => rfl
  | [a] => rfl
  | [a, b] => rfl
  | [a, b, c] => rfl
  | a :: b :: c :: d :: t => rfl

/-- C6: decoding an inode-info record from a buffer shorter than 8 bytes
fails with the not-enough-data outcome without reading the buffer at all,
and from a buffer of at least 8 bytes succeeds, consumes 8 bytes, and
yields the mount id from bytes 0-3 and the overlay-lower count from bytes
4-7 in the tracer's native byte order (so no byte past index 7 is read). -/
theorem c6_inode_decode_bounds (data : List Nat) :
    (data.length < 8 →
      InodeInfo.UnmarshalBinary data = .error .notEnoughData) ∧
    (8 ≤ data.length →
      InodeInfo.UnmarshalBinary data =
        .ok (8, { mountID := byteOrderUint32 (data.take 4),
                  overlayNumLower :=
                    int32OfUint32 (byteOrderUint32 ((data.drop 4).take 4)) })) := by
  constructor
  · intro h
    simp [InodeInfo.UnmarshalBinary, h]
  · intro h
    have h2 : ¬ data.length < 8 := by omega
    simp [InodeInfo.UnmarshalBinary, h2, byteOrderUint32_take]

/-- Witness for C6 at concrete buffers: a 4-byte buffer fails with
not-enough-data, and an 8-byte buffer decodes mount id 1 and overlay
count -2 (two's-complement bytes). -/
theorem c6_inode_decode_bounds_witness :
    InodeInfo.UnmarshalBinary [0, 0, 0, 0] = .error .notEnoughData ∧
    InodeInfo.UnmarshalBinary [1, 0, 0, 0, 254, 255, 255, 255] =
      .ok (8, { mountID := 1, overlayNumLower := -2 }) := by
  constructor
  · exact (c6_inode_decode_bounds [0, 0, 0, 0]).1 (by decide)
  · have h := (c6_inode_decode_bounds [1, 0, 0, 0, 254, 255, 255, 255]).2
      (by decide)
    rw [h]
    rfl

/-- C8: `DelEntry` removes only the pid's own map slot: afterwards `Get`
on that pid is absent, `Get` on a former child still returns the child's
reference, the child's parent pointer still references the evicted
object, and the evicted object itself is untouched on the heap (it is
neither unlinked from anything nor are its children deleted). -/
theorem c8_delentry_frame (s : RState) (pid cpid r cr : Nat)
    (hp : Get s pid = some r)
    (hc : Get s cpid = some cr)
    (hne : cpid ≠ pid)
    (hpar : (heapGet s.heap cr).parent = some r) :
    Get (DelEntry s pid) pid = none ∧
    Get (DelEntry s pid) cpid = some cr ∧
    (heapGet (DelEntry s pid).heap cr).parent = some r ∧
    heapGet (DelEntry s pid).heap r = heapGet s.heap r := by
  refine ⟨?_, ?_, hpar, rfl⟩
  · simp [Get, DelEntry, cacheFind_del_self]
  · simp only [Get, DelEntry]
    rw [cacheFind_del_ne _ _ _ hne]
    exact hc

/-- Witness for C8: deleting pid 10 from the cache built by inserting pid
20 with parent 10 leaves pid 20 resolvable with its parent pointer intact. -/
theorem c8_delentry_frame_witness :
    Get (AddEntry {} 20 { ppid := 10 }) 10 = some 1 ∧
    Get (AddEntry {} 20 { ppid := 10 }) 20 = some 0 ∧
    (heapGet (AddEntry {} 20 { ppid := 10 }).heap 0).parent = some 1 ∧
    (Get (DelEntry (AddEntry {} 20 { ppid := 10 }) 10) 10 = none ∧
     Get (DelEntry (AddEntry {} 20 { ppid := 10 }) 10) 20 = some 0 ∧
     (heapGet (DelEntry (AddEntry {} 20 { ppid := 10 }) 10).heap 0).parent =
       some 1 ∧
     heapGet (DelEntry (AddEntry {} 20 { ppid := 10 }) 10).heap 1 =
       heapGet (AddEntry {} 20 { ppid := 10 }).heap 1) := by
  refine ⟨by decide, by decide, by decide, ?_⟩
  exact c8_delentry_frame (AddEntry {} 20 { ppid := 10 }) 10 20 1 0
    (by decide) (by decide) (by decide) (by decide)

/-- C1 (code bug evidence): insert pid 20 with parent 10 into an empty
cache, then insert the real entry for pid 10. The code's `insertEntry`
executes `entryCache[pid] = entry` unconditionally, so the map slot for
pid 10 is replaced (reference 2, the fresh entry) instead of the
placeholder (reference 1) being overwritten in place: the entry now
stored under 10 has an empty child list, and the pid-20 child's parent
pointer still references the orphaned placeholder, not the stored entry —
contradicting the claimed in-place overwrite that preserves the child
list. -/
theorem c1_insert_real_entry_replaces_placeholder_slot :
    Get (AddEntry (AddEntry {} 20 { ppid := 10 }) 10 { comm := "init" }) 10 =
      some 2 ∧
    Get (AddEntry (AddEntry {} 20 { ppid := 10 }) 10 { comm := "init" }) 20 =
      some 0 ∧
    (heapGet (AddEntry (AddEntry {} 20 { ppid := 10 }) 10
      { comm := "init" }).heap 2).children = [] ∧
    (heapGet (AddEntry (AddEntry {} 20 { ppid := 10 }) 10
      { comm := "init" }).heap 0).parent = some 1 ∧
    (heapGet (AddEntry (AddEntry {} 20 { ppid := 10 }) 10
      { comm := "init" }).heap 1).children = [0] := by
  decide

/-- C4 (counterexample): inserting the same entry data (pid 20, parent
10) twice from the empty cache is not equivalent to inserting it once —
the second insert appends the entry a second time to its parent's child
list, so the parent's observable child list becomes a duplicate pair
instead of a singleton. -/
theorem c4_double_insert_duplicates_child_link :
    childCores (AddEntry (AddEntry {} 20 { ppid := 10, comm := "x" }) 20
        { ppid := 10, comm := "x" }) 10 ≠
      childCores (AddEntry {} 20 { ppid := 10, comm := "x" }) 10 ∧
    ((childCores (AddEntry (AddEntry {} 20 { ppid := 10, comm := "x" }) 20
        { ppid := 10, comm := "x" }) 10).getD []).length = 2 ∧
    ((childCores (AddEntry {} 20
        { ppid := 10, comm := "x" }) 10).getD []).length = 1 := by
  decide

/-- C7 (counterexample): the claim quantifies over every sequence of
cache operations, but after inserting an entry under pid 0 and then an
entry with parent pid 0, the lookup `entryCache[entry.PPid]` succeeds at
key 0 and the code links a parent pointer for an entry whose parent pid
is below 1: the entry stored under pid 5 has parent pid 0 yet carries a
parent reference. -/
theorem c7_pid_zero_key_enables_parent_link :
    Get (AddEntry (AddEntry {} 0 { comm := "swapper" }) 5
      { comm := "child" }) 5 = some 1 ∧
    (heapGet (AddEntry (AddEntry {} 0 { comm := "swapper" }) 5
      { comm := "child" }).heap 1).ppid = 0 ∧
    (heapGet (AddEntry (AddEntry {} 0 { comm := "swapper" }) 5
      { comm := "child" }).heap 1).parent = some 0 := by
  decide

/-- C3: for a pid with no cache entry, if the pid-to-cookie lookup
misses, or the cookie-to-record lookup misses, or the combined payload is
shorter than the 208-byte minimum, `Resolve` returns the absent result
and leaves the state (cache and heap) completely unchanged. -/
theorem c3_resolve_miss_no_mutation (s : RState) (env : Env) (pid : Nat)
    (hmiss : Get s pid = none)
    (hk : env.pidCookieMap (putUint32 pid) = none
        ∨ (∃ cookieb, env.pidCookieMap (putUint32 pid) = some cookieb ∧
            env.procCacheMap (cookieb.take 4) = none)
        ∨ (∃ cookieb entryb, env.pidCookieMap (putUint32 pid) = some cookieb ∧
            env.procCacheMap (cookieb.take 4) = some entryb ∧
            (entryb ++ cookieb).length < 208)) :
    Resolve s env pid = (s, none) := by
  have hm : cacheFind s.entryCache pid = none := hmiss
  rcases hk with h | ⟨cb, h1, h2⟩ | ⟨cb, eb, h1, h2, h3⟩
  · simp [Resolve, hm, resolveFallback, h]
  · simp [Resolve, hm, resolveFallback, h1, h2]
  · simp only [Resolve, hm, resolveFallback, h1, h2]
    rw [if_pos h3]

/-- Witness for C3: resolving pid 7 against the empty environment from
the empty state returns unresolved and the state is unchanged. -/
theorem c3_resolve_miss_no_mutation_witness :
    Get ({} : RState) 7 = none ∧
    envNone.pidCookieMap (putUint32 7) = none ∧
    Resolve {} envNone 7 = ({}, none) := by
  refine ⟨by decide, by decide, ?_⟩
  exact c3_resolve_miss_no_mutation {} envNone 7 (by decide)
    (Or.inl (by decide))

set_option maxRecDepth 8192 in
/-- C2 (code bug evidence): on exactly the claimed scenario — pid 7
absent from the cache and present in both kernel tables with a 208-byte
combined payload — the single `Resolve` call's lock trace acquires the
exclusive mutex a second time (inside `insertEntry`, line 296) while the
call already holds it (taken at line 328 and released only by defer), so
on the non-reentrant `sync.RWMutex` the call self-deadlocks: it never
returns a populated entry, the insert into the cache never completes,
and a subsequent `Get` (which takes the read lock) would block behind
the never-released write lock rather than return the data. -/
theorem c2_resolve_fallback_never_returns :
    Get ({} : RState) 7 = none ∧
    envKern.pidCookieMap (putUint32 7) = some (putUint32 99) ∧
    envKern.procCacheMap ((putUint32 99).take 4) =
      some (List.replicate 204 0) ∧
    208 ≤ (List.replicate 204 0 ++ putUint32 99).length ∧
    hasNestedAcquire 0 (ResolveTrace {} envKern 7) = true := by
  refine ⟨by decide, by decide, by decide, by decide, by decide⟩

/-- C5 (code bug evidence): on the fallback-success path (cache miss,
both kernel tables hit, payload at least 208 bytes) the lock trace of a
single `Resolve` call acquires the exclusive lock again — inside
`insertEntry` — while the same call already holds it (`Resolve` locks on
entry and releases only on return), so the call self-deadlocks on the
non-reentrant mutex instead of terminating; the claim that `Resolve`
never waits on a lock the same call already holds is false. -/
theorem c5_resolve_fallback_self_deadlock (s : RState) (env : Env)
    (pid : Nat) (cookieb entryb : List Nat)
    (hmiss : Get s pid = none)
    (hck : env.pidCookieMap (putUint32 pid) = some cookieb)
    (hpc : env.procCacheMap (cookieb.take 4) = some entryb)
    (hlen : 208 ≤ (entryb ++ cookieb).length) :
    hasNestedAcquire 0 (ResolveTrace s env pid) = true := by
  have hm : cacheFind s.entryCache pid = none := hmiss
  have h1 : ¬ (entryb ++ cookieb).length < 208 := by omega
  have h2 : ¬ (entryb ++ cookieb).length < 200 := by omega
  simp only [ResolveTrace, hm, resolveFallbackTrace, hck, hpc, if_neg h1,
    pceUnmarshalBinary, if_neg h2]
  rfl

set_option maxRecDepth 8192 in
/-- Witness for C5: the concrete kernel tables of `envKern` drive the
resolve of pid 7 into the nested exclusive acquisition. -/
theorem c5_resolve_fallback_self_deadlock_witness :
    Get ({} : RState) 7 = none ∧
    envKern.pidCookieMap (putUint32 7) = some (putUint32 99) ∧
    envKern.procCacheMap ((putUint32 99).take 4) = some (List.replicate 204 0) ∧
    208 ≤ (List.replicate 204 0 ++ putUint32 99).length ∧
    hasNestedAcquire 0 (ResolveTrace {} envKern 7) = true := by
  refine ⟨by decide, by decide, by decide, by decide, ?_⟩
  exact c5_resolve_fallback_self_deadlock {} envKern 7 (putUint32 99)
    (List.replicate 204 0) (by decide) (by decide) (by decide) (by decide)

/-- C10: enrichment is atomic — every failure point of
`enrichEventFromProc` precedes the first field assignment — so a failed
`SyncCache` pass over a pid whose entry is already cached returns false
and leaves the whole state, in particular the cached entry's prior field
values, unchanged. -/
theorem c10_enrich_failure_leaves_cache_unchanged (s : RState) (env : Env)
    (proc : FilledProcess) (r : Nat)
    (hc : Get s proc.pid = some r)
    (he : enrichEventFromProc env (heapGet s.heap r) proc = none) :
    SyncCache s env proc = (s, false) := by
  have hc2 : cacheFind s.entryCache proc.pid = some r := hc
  by_cases hz : proc.pid = 0
  · simp [SyncCache, hz]
  · simp only [SyncCache, if_neg hz, hc2]
    by_cases ht : (heapGet s.heap r).execTimestamp.isSome = true
    · simp [ht]
    · simp [ht, he]

/-- Witness for C10: pid 7 is cached (reference 0) with fields from a
prior insert, enrichment fails under the empty environment, and
`SyncCache` leaves the state untouched and reports no change. -/
theorem c10_enrich_failure_leaves_cache_unchanged_witness :
    Get (AddEntry {} 7 { comm := "a" }) 7 = some 0 ∧
    enrichEventFromProc envNone
      (heapGet (AddEntry {} 7 { comm := "a" }).heap 0) procSnap = none ∧
    SyncCache (AddEntry {} 7 { comm := "a" }) envNone procSnap =
      (AddEntry {} 7 { comm := "a" }, false) := by
  refine ⟨by decide, by decide, ?_⟩
  exact c10_enrich_failure_leaves_cache_unchanged (AddEntry {} 7 { comm := "a" })
    envNone procSnap 0 (by decide) (by decide)

/-- C9: the snapshot driver skips a pid already cached with a non-zero
exec timestamp — it returns false and leaves the state unchanged under
every environment, hence without invoking the enrichment pipeline — and
for a pid not yet fully resolved (absent, or cached with a zero exec
timestamp) whose enrichment succeeds, it returns true and the cache slot
for the pid afterwards holds the enriched entry. -/
theorem c9_synccache_skip_and_insert (s : RState) (env : Env)
    (proc : FilledProcess) (hw : cacheRefsValid s = true) :
    (∀ r, Get s proc.pid = some r →
      (heapGet s.heap r).execTimestamp.isSome = true →
      ∀ env2, SyncCache s env2 proc = (s, false)) ∧
    (proc.pid ≠ 0 →
      (∀ r, Get s proc.pid = some r →
        (heapGet s.heap r).execTimestamp = none) →
      ∀ e2, enrichEventFromProc env (syncTarget s proc.pid) proc = some e2 →
        (SyncCache s env proc).2 = true ∧
        slotCore (SyncCache s env proc).1 proc.pid = some (coreOf e2)) := by
  constructor
  · intro r hr ht env2
    have hc2 : cacheFind s.entryCache proc.pid = some r := hr
    by_cases hz : proc.pid = 0
    · simp [SyncCache, hz]
    · simp only [SyncCache, if_neg hz, hc2]
      simp [ht]
  · intro hz hts e2 he
    cases hcc : cacheFind s.entryCache proc.pid with
    | some r =>
      have ht : (heapGet s.heap r).execTimestamp = none := hts r hcc
      have ht2 : ¬ (heapGet s.heap r).execTimestamp.isSome = true := by
        simp [ht]
      have he2 : enrichEventFromProc env (heapGet s.heap r) proc = some e2 := by
        have hst : syncTarget s proc.pid = heapGet s.heap r := by
          simp [syncTarget, hcc]
        rwa [hst] at he
      have hsync : SyncCache s env proc =
          (insertEntry { s with heap := heapSet s.heap r e2 } proc.pid r,
            true) := by
        simp only [SyncCache, if_neg hz, hcc, he2, if_neg ht2]
      rw [hsync]
      refine ⟨rfl, ?_⟩
      have hrlen : r < s.heap.length := refsValid_find s proc.pid r hw hcc
      have hrlen2 : r <
          ({ s with heap := heapSet s.heap r e2 } : RState).heap.length := by
        simpa [heapSet_length] using hrlen
      have hcore := insertEntry_core { s with heap := heapSet s.heap r e2 }
        proc.pid r hrlen2
      simp only [slotCore, insertEntry_find_self, Option.map_some']
      rw [hcore]
      have hget : heapGet (heapSet s.heap r e2) r = e2 :=
        heapGet_set_self _ _ _ hrlen
      simp only [hget]
    | none =>
      have he2 : enrichEventFromProc env ({} : ProcessCacheEntry) proc =
          some e2 := by
        have hst : syncTarget s proc.pid = {} := by simp [syncTarget, hcc]
        rwa [hst] at he
      have hsync : SyncCache s env proc =
          (insertEntry { s with heap := s.heap ++ [e2] } proc.pid
            s.heap.length, true) := by
        simp only [SyncCache, if_neg hz, hcc, he2]
      rw [hsync]
      refine ⟨rfl, ?_⟩
      have hrlen : s.heap.length <
          ({ s with heap := s.heap ++ [e2] } : RState).heap.length := by simp
      have hcore := insertEntry_core { s with heap := s.heap ++ [e2] }
        proc.pid s.heap.length hrlen
      simp only [slotCore, insertEntry_find_self, Option.map_some']
      rw [hcore]
      have hget : heapGet (s.heap ++ [e2]) s.heap.length = e2 :=
        heapGet_append_self _ _
      simp only [hget]

/-- Witness for C9: from the empty cache, snapshotting pid 7 under
`envSnap` enriches successfully, reports a change and stores
`entrySnap`. -/
theorem c9_synccache_skip_and_insert_witness :
    cacheRefsValid ({} : RState) = true ∧
    (7 : Nat) ≠ 0 ∧
    enrichEventFromProc envSnap (syncTarget {} 7) procSnap =
      some entrySnap ∧
    ((SyncCache {} envSnap procSnap).2 = true ∧
     slotCore (SyncCache {} envSnap procSnap).1 7 =
       some (coreOf entrySnap)) := by
  refine ⟨by decide, by decide, by decide, ?_⟩
  exact (c9_synccache_skip_and_insert {} envSnap procSnap (by decide)).2
    (by decide) (fun r hr => Option.noConfusion hr) entrySnap (by decide)

/-- C4 (amended): inserting the same entry data twice is last-write-wins
for the map slot — the entry observable under the pid after two identical
inserts equals the one after a single insert — but it is not a harmless
overwrite of the whole state: the second insert appends the entry a
second time to its parent's child list, so the parent's observable child
list grows from one copy of the entry's data to two. -/
theorem c4_double_insert_slot_last_write_wins (pid : Nat)
    (e : ProcessCacheEntry) (h1 : 1 ≤ e.ppid) (h2 : pid ≠ e.ppid) :
    slotCore (AddEntry (AddEntry {} pid e) pid e) pid =
      slotCore (AddEntry {} pid e) pid ∧
    slotCore (AddEntry {} pid e) pid = some (coreOf e) ∧
    childCores (AddEntry {} pid e) e.ppid = some [coreOf e] ∧
    childCores (AddEntry (AddEntry {} pid e) pid e) e.ppid =
      some [coreOf e, coreOf e] := by
  have hne : ¬ e.ppid = pid := fun h => h2 h.symm
  have hs1 : AddEntry ({} : RState) pid e =
      { heap := [{ e with parent := some 1 },
                 { pid := e.ppid, children := [0] }],
        entryCache := [(e.ppid, 1), (pid, 0)] } := by
    simp [AddEntry, insertEntry, heapGet, heapSet, cacheFind, cacheSet,
      h1, hne]
  rw [hs1]
  have hs2 : AddEntry
      ({ heap := [{ e with parent := some 1 },
                  { pid := e.ppid, children := [0] }],
         entryCache := [(e.ppid, 1), (pid, 0)] } : RState) pid e =
      { heap := [{ e with parent := some 1 },
                 { pid := e.ppid, children := [0, 2] },
                 { e with parent := some 1 }],
        entryCache := [(e.ppid, 1), (pid, 2)] } := by
    simp [AddEntry, insertEntry, heapGet, heapSet, cacheFind, cacheSet,
      h1, hne]
  rw [hs2]
  refine ⟨?_, ?_, ?_, ?_⟩
  · simp [slotCore, cacheFind, heapGet, hne, coreOf_mk, coreOf]
  · simp [slotCore, cacheFind, heapGet, hne, coreOf_mk, coreOf]
  · simp [childCores, cacheFind, heapGet, hne, coreOf_mk, coreOf]
  · simp [childCores, cacheFind, heapGet, hne, coreOf_mk, coreOf]

/-- Witness for C4 (amended) at pid 20 with parent pid 10. -/
theorem c4_double_insert_slot_last_write_wins_witness :
    1 ≤ (({ ppid := 10, comm := "x" } : ProcessCacheEntry)).ppid ∧
    (20 : Nat) ≠ ({ ppid := 10, comm := "x" } : ProcessCacheEntry).ppid ∧
    (slotCore (AddEntry (AddEntry {} 20 { ppid := 10, comm := "x" }) 20
        { ppid := 10, comm := "x" }) 20 =
      slotCore (AddEntry {} 20 { ppid := 10, comm := "x" }) 20 ∧
     slotCore (AddEntry {} 20 { ppid := 10, comm := "x" }) 20 =
      some (coreOf { ppid := 10, comm := "x" }) ∧
     childCores (AddEntry {} 20 { ppid := 10, comm := "x" }) 10 =
      some [coreOf { ppid := 10, comm := "x" }] ∧
     childCores (AddEntry (AddEntry {} 20 { ppid := 10, comm := "x" }) 20
        { ppid := 10, comm := "x" }) 10 =
      some [coreOf { ppid := 10, comm := "x" },
            coreOf { ppid := 10, comm := "x" }]) := by
  refine ⟨by decide, by decide, ?_⟩
  exact c4_double_insert_slot_last_write_wins 20 { ppid := 10, comm := "x" }
    (by decide) (by decide)

theorem heapGet_singleton_parent (x : ProcessCacheEntry)
    (hxp : x.parent = none) (m : Nat) : (heapGet [x] m).parent = none := by
  cases m with
  | zero => exact hxp
  | succ n => rfl

theorem insertEntry_inv (s : RState) (pid r : Nat)
    (hk : noPidZeroKeys s) (hp : 1 ≤ pid)
    (hro : ∀ i, i ≠ r → (heapGet s.heap i).ppid = 0 →
      (heapGet s.heap i).parent = none) :
    noPidZeroKeys (insertEntry s pid r) ∧
    rootsUnlinked (insertEntry s pid r) := by
  simp only [insertEntry]
  split
  next pref hc =>
    have hppid : 1 ≤ (heapGet s.heap r).ppid := hk _ _ hc
    have hrl : r < s.heap.length := by
      by_contra hcon
      rw [heapGet_ge s.heap r (Nat.le_of_not_lt hcon)] at hppid
      exact absurd hppid (by decide)
    constructor
    · intro q v hf
      by_cases hq : q = pid
      · subst hq; exact hp
      · rw [cacheFind_set_ne _ _ _ _ hq] at hf
        exact hk q v hf
    · intro i hpp
      simp only [heapGet_set, heapSet_length] at hpp ⊢
      split_ifs at hpp ⊢ with h1 h2 h3
      · have h4 : (heapGet s.heap pref).ppid = 0 := hpp
        rw [← h2.1] at h4
        omega
      · have h4 : (heapGet s.heap r).ppid = 0 := hpp
        omega
      · have hir : i ≠ r := fun hh => h1 ⟨hh, hrl⟩
        rw [← h3.1] at hpp ⊢
        exact hro i hir hpp
      · exact hro i (fun hh => h1 ⟨hh, hrl⟩) hpp
  next hc =>
    split
    next h1e =>
      have hrl : r < s.heap.length := by
        by_contra hcon
        rw [heapGet_ge s.heap r (Nat.le_of_not_lt hcon)] at h1e
        exact absurd h1e (by decide)
      constructor
      · intro q v hf
        by_cases hq : q = pid
        · subst hq; exact hp
        · rw [cacheFind_set_ne _ _ _ _ hq] at hf
          by_cases hq2 : q = (heapGet s.heap r).ppid
          · subst hq2; exact h1e
          · rw [cacheFind_set_ne _ _ _ _ hq2] at hf
            exact hk q v hf
      · intro i hpp
        simp only [heapGet_set, heapGet_append, heapSet_length,
          List.length_append, List.length_singleton] at hpp ⊢
        split_ifs at hpp ⊢ with h1 h2
        · have h4 : (heapGet s.heap r).ppid = 0 := hpp
          omega
        · exact hro i (fun hh => h1 ⟨hh, by omega⟩) hpp
        · exact heapGet_singleton_parent _ rfl _
    next h1e =>
      constructor
      · intro q v hf
        by_cases hq : q = pid
        · subst hq; exact hp
        · rw [cacheFind_set_ne _ _ _ _ hq] at hf
          exact hk q v hf
      · intro i hpp
        simp only [heapGet_set] at hpp ⊢
        split_ifs at hpp ⊢ with h1
        · rfl
        · by_cases hir : i = r
          · subst hir
            have hge : s.heap.length ≤ i := by
              by_contra hcon
              exact h1 ⟨rfl, Nat.lt_of_not_le hcon⟩
            rw [heapGet_ge s.heap i hge]
          · exact hro i hir hpp

theorem addEntry_inv (s : RState) (pid : Nat) (e : ProcessCacheEntry)
    (hk : noPidZeroKeys s) (hr : rootsUnlinked s) (hp : 1 ≤ pid) :
    noPidZeroKeys (AddEntry s pid e) ∧ rootsUnlinked (AddEntry s pid e) := by
  apply insertEntry_inv
  · exact hk
  · exact hp
  · intro i hir hppid
    rw [heapGet_append] at hppid ⊢
    by_cases hi : i < s.heap.length
    · simp only [if_pos hi] at hppid ⊢
      exact hr i hppid
    · simp only [if_neg hi] at hppid ⊢
      have hgt : s.heap.length < i :=
        Nat.lt_of_le_of_ne (Nat.le_of_not_lt hi) (fun h => hir h.symm)
      rw [heapGet_ge [e] (i - s.heap.length) (by simp; omega)]

theorem delEntry_inv (s : RState) (pid : Nat)
    (hk : noPidZeroKeys s) (hr : rootsUnlinked s) :
    noPidZeroKeys (DelEntry s pid) ∧ rootsUnlinked (DelEntry s pid) := by
  constructor
  · intro q v hf
    by_cases hq : q = pid
    · subst hq
      rw [DelEntry] at hf
      rw [cacheFind_del_self] at hf
      exact Option.noConfusion hf
    · rw [DelEntry] at hf
      rw [cacheFind_del_ne _ _ _ hq] at hf
      exact hk q v hf
  · exact hr

theorem runOps_inv (ops : List CacheOp) (s : RState)
    (hk : noPidZeroKeys s) (hr : rootsUnlinked s)
    (hops : ∀ op ∈ ops, opOK op = true) :
    noPidZeroKeys (runOps s ops) ∧ rootsUnlinked (runOps s ops) := by
  induction ops generalizing s with
  | nil => exact ⟨hk, hr⟩
  | cons op t ih =>
    have hop := hops op (List.mem_cons_self _ _)
    have htail : ∀ o ∈ t, opOK o = true :=
      fun o ho => hops o (List.mem_cons.mpr (Or.inr ho))
    cases op with
    | addOp pid e =>
      have hp : 1 ≤ pid := by simpa [opOK] using hop
      obtain ⟨h1, h2⟩ := addEntry_inv s pid e hk hr hp
      exact ih (AddEntry s pid e) h1 h2 htail
    | delOp pid =>
      obtain ⟨h1, h2⟩ := delEntry_inv s pid hk hr
      exact ih (DelEntry s pid) h1 h2 htail

/-- C7 (amended): the placeholder guard `PPid >= 1` means `insert` never
synthesizes a placeholder for a parent pid below 1, and provided every
inserted pid is at least 1 — so that pid 0 never becomes a cache key —
after any sequence of insert and delete operations starting from the
empty cache, no cache key is below 1 and every entry whose parent pid is
zero has no parent reference. -/
theorem c7_no_parent_link_for_zero_ppid (ops : List CacheOp)
    (hops : ∀ op ∈ ops, opOK op = true) :
    noPidZeroKeys (runOps {} ops) ∧ rootsUnlinked (runOps {} ops) := by
  apply runOps_inv
  · intro q v hf
    exact Option.noConfusion hf
  · intro i hpp
    rfl
  · exact hops

/-- Witness for C7 (amended): inserting pid 20 under parent 10, then the
real pid 10, then deleting pid 20 keeps every key at least 1 and every
zero-parent-pid entry unlinked. -/
theorem c7_no_parent_link_for_zero_ppid_witness :
    (∀ op ∈ ([CacheOp.addOp 20 { ppid := 10 },
              CacheOp.addOp 10 { comm := "init" },
              CacheOp.delOp 20] : List CacheOp), opOK op = true) ∧
    (noPidZeroKeys (runOps {} [CacheOp.addOp 20 { ppid := 10 },
        CacheOp.addOp 10 { comm := "init" }, CacheOp.delOp 20]) ∧
     rootsUnlinked (runOps {} [CacheOp.addOp 20 { ppid := 10 },
        CacheOp.addOp 10 { comm := "init" }, CacheOp.delOp 20])) := by
  refine ⟨by decide, ?_⟩
  exact c7_no_parent_link_for_zero_ppid
    [CacheOp.addOp 20 { ppid := 10 },
     CacheOp.addOp 10 { comm := "init" }, CacheOp.delOp 20] (by decide)

end Probe
